import Mathlib

/-!
# Verification of the webtreemap squarified layout core (src/treemap.ts)

This file embeds the layout core of `src/treemap.ts` — the span selection
heuristic `TreeMap.selectSpan` and the recursive geometry pass
`TreeMap.layout` — and proves properties of the embedding.

Modelling conventions:

* JavaScript `number` arithmetic is idealised as exact arithmetic over `ℚ`,
  which is the reading the specification itself uses ("exactly", "unrounded").
  The one place where IEEE special values are semantically relevant is the
  score computation of `selectSpan`, whose divisions can produce `Infinity`
  or `NaN` when a weight is `0`.  Score values are therefore computed in a
  small type `JsNum` (finite rational, `+∞`, `-∞`, `NaN`) whose division,
  `Math.max`, comparison and truthiness follow the JavaScript semantics.
  (`-0` is not distinguished from `0`; no claim depends on it.)

* `layout` computes `scale = Math.sqrt(total / area)`, which is irrational
  in general.  The source uses `scale` only in combinations where it appears
  squared: the score of `selectSpan` uses `space * space`, and the emitted
  lengths are `heightPx = (sum/space)/scale = sum/(scale² · (x2-x1))` and
  `widthPx = (size/(sum/space))/scale = size·(x2-x1)/sum`.  The embedding
  therefore carries `scaleSq = scale²` (exactly `total / contentArea`) and
  `spaceSq = space²`, with each cancellation noted where it is used.  This
  is exact in real arithmetic.

* The DOM side effects of `layout` (`createNode`, `appendChild`, style
  assignment) are modelled as an emitted list of `Emit` records, one per
  child that receives a rectangle, carrying the unrounded geometry and the
  rounded, spacing-reduced style values actually written to CSS.

* Loops are written with an explicit structural fuel equal to the number of
  remaining iterations; every top-level entry point passes enough fuel, and
  the fuel never runs out on the paths the loops actually take (the strip
  loop consumes at least one child per iteration, which is proved below).
-/

/-- `JsNum` is the fragment of IEEE-754 double behaviour the score
computation of `selectSpan` can reach: a finite value (idealised as `ℚ`),
`+Infinity`, `-Infinity`, or `NaN`. -/
inductive JsNum where
  | nan : JsNum
  | inf : JsNum
  | neginf : JsNum
  | fin : ℚ → JsNum
deriving DecidableEq

/-- JavaScript division `a / b` of two finite values: finite for a nonzero
denominator, otherwise `±Infinity` by the sign of the numerator, and `NaN`
for `0 / 0`. -/
def jsDiv (a b : ℚ) : JsNum :=
  if b = 0 then (if 0 < a then .inf else if a < 0 then .neginf else .nan)
  else .fin (a / b)

/-- JavaScript `Math.max`: `NaN` if either argument is `NaN`, otherwise the
larger argument. -/
def jsMax : JsNum → JsNum → JsNum
  | .nan, _ => .nan
  | _, .nan => .nan
  | .inf, _ => .inf
  | _, .inf => .inf
  | .neginf, b => b
  | a, .neginf => a
  | .fin a, .fin b => .fin (max a b)

/-- JavaScript `>` on numbers: any comparison involving `NaN` is false. -/
def jsGt : JsNum → JsNum → Bool
  | .nan, _ => false
  | _, .nan => false
  | .inf, .inf => false
  | .inf, _ => true
  | _, .inf => false
  | .neginf, _ => false
  | .fin _, .neginf => true
  | .fin a, .fin b => decide (b < a)

/-- JavaScript truthiness of a number: `0` and `NaN` are falsy, everything
else is truthy.  Used by the `if (lastScore && ...)` test in `selectSpan`. -/
def truthy : JsNum → Bool
  | .nan => false
  | .inf => true
  | .neginf => true
  | .fin q => decide (q ≠ 0)

/-- `Data` from src/treemap.ts: a weighted tree node.  `caption` is layout
irrelevant and omitted.  An absent `children` array behaves, for everything
`layout` emits, exactly like an empty one (the early `if (!children) return`
versus a zero-iteration strip loop), so `children` is modelled as a plain
list. -/
inductive Data where
  | mk : ℚ → List Data → Data

/-- The node's weight (`size` field). -/
def Data.size : Data → ℚ
  | .mk s _ => s

/-- The node's children (`children` field, absent modelled as `[]`). -/
def Data.children : Data → List Data
  | .mk _ c => c

/-- `children[i].size`; the source only evaluates it for in-range `i`
(out of range reads default to weight `0` here). -/
def sizeAt (children : List Data) (i : ℕ) : ℚ :=
  ((children[i]?).getD (Data.mk 0 [])).size

/-- Result of `selectSpan`: `endIdx` is one past the last rectangle of the
span, `sum` the sum of the spanned weights. -/
structure SpanResult where
  endIdx : ℕ
  sum : ℚ
deriving DecidableEq

/-- The loop of `TreeMap.selectSpan` (src/treemap.ts lines 100-143), one
iteration per fuel unit.  State: `smin`/`smax` are the smallest/largest
weight seen, `sum` the sum of the included weights, `lastScore` the score
recorded for the last included candidate (initially the number `0`), and
`endIdx` the candidate index.  `spaceSq` is `space * space` (see the header:
the source uses `space` only squared).  The fuel passed by `selectSpan` is
`children.length - start`, exactly the maximal number of iterations of the
source loop `for (; end < children.length; end++)`. -/
def selectSpanGo (children : List Data) (spaceSq : ℚ) :
    ℕ → ℚ → ℚ → ℚ → JsNum → ℕ → SpanResult
  | 0, _, _, sum, _, endIdx => ⟨endIdx, sum⟩
  | fuel + 1, smin, smax, sum, lastScore, endIdx =>
    if endIdx < children.length then
      let size := sizeAt children endIdx
      let smin1 := if size < smin then size else smin
      let smax1 := if smax < size then size else smax
      let nextSum := sum + size
      -- score = Math.max(smax*space*space/(nextSum*nextSum),
      --                  nextSum*nextSum/(smin*space*space))
      let score := jsMax (jsDiv (smax1 * spaceSq) (nextSum * nextSum))
                         (jsDiv (nextSum * nextSum) (smin1 * spaceSq))
      if truthy lastScore && jsGt score lastScore then ⟨endIdx, sum⟩
      else selectSpanGo children spaceSq fuel smin1 smax1 nextSum score (endIdx + 1)
    else ⟨endIdx, sum⟩

/-- `TreeMap.selectSpan` (src/treemap.ts lines 95-144): given the children,
the squared 1-d space, and a start index, compute the span `[start, end)`
and its weight sum.  `smin`/`smax` start at `children[start].size`, `sum` at
`0`, `lastScore` at the number `0`. -/
def selectSpan (children : List Data) (spaceSq : ℚ) (start : ℕ) : SpanResult :=
  selectSpanGo children spaceSq (children.length - start)
    (sizeAt children start) (sizeAt children start) 0 (.fin 0) start

/-- Running minimum of the weights `children[start..start+n]` (inclusive),
as maintained by the `smin` variable of `selectSpan`. -/
def spanMin (children : List Data) (start : ℕ) : ℕ → ℚ
  | 0 => sizeAt children start
  | n + 1 =>
    let s := sizeAt children (start + (n + 1))
    if s < spanMin children start n then s else spanMin children start n

/-- Running maximum of the weights `children[start..start+n]` (inclusive),
as maintained by the `smax` variable of `selectSpan`. -/
def spanMax (children : List Data) (start : ℕ) : ℕ → ℚ
  | 0 => sizeAt children start
  | n + 1 =>
    let s := sizeAt children (start + (n + 1))
    if spanMax children start n < s then s else spanMax children start n

/-- Sum of the weights `children[start..start+n)` (exclusive): the value of
the `sum` variable of `selectSpan` once `n` candidates are included. -/
def spanSum (children : List Data) (start : ℕ) : ℕ → ℚ
  | 0 => 0
  | n + 1 => spanSum children start n + sizeAt children (start + n)

/-- The score `selectSpan` computes for candidate `start + n`:
`Math.max(smax*space²/nextSum², nextSum²/(smin*space²))` with the running
min/max over `children[start..start+n]` and `nextSum` their sum. -/
def spanScore (children : List Data) (spaceSq : ℚ) (start n : ℕ) : JsNum :=
  jsMax
    (jsDiv (spanMax children start n * spaceSq)
      (spanSum children start (n + 1) * spanSum children start (n + 1)))
    (jsDiv (spanSum children start (n + 1) * spanSum children start (n + 1))
      (spanMin children start n * spaceSq))

/-- Whether the loop of `selectSpan` breaks at candidate `start + n`:
never at the first candidate (no score recorded yet, `lastScore` is the
falsy `0`), afterwards exactly when the previously recorded score is truthy
and the candidate's score is strictly greater. -/
def spanStop (children : List Data) (spaceSq : ℚ) (start : ℕ) : ℕ → Bool
  | 0 => false
  | n + 1 =>
    truthy (spanScore children spaceSq start n) &&
      jsGt (spanScore children spaceSq start (n + 1)) (spanScore children spaceSq start n)

/-- The candidate score as a plain rational.  For strictly positive weights
and positive `spaceSq` every division in `spanScore` has a positive
denominator, and `spanScore` is the finite number `spanScoreQ`
(`spanScore_eq_fin` below). -/
def spanScoreQ (children : List Data) (spaceSq : ℚ) (start n : ℕ) : ℚ :=
  max
    (spanMax children start n * spaceSq /
      (spanSum children start (n + 1) * spanSum children start (n + 1)))
    (spanSum children start (n + 1) * spanSum children start (n + 1) /
      (spanMin children start n * spaceSq))

/-- A child rectangle as computed by `layout`, before the spacing
subtraction and the `Math.round` in `px()`: `x`/`y` are the running
offsets, `w`/`h` the unrounded `widthPx`/`heightPx`. -/
structure Rect where
  x : ℚ
  y : ℚ
  w : ℚ
  h : ℚ

/-- One strip produced by an iteration of the outer loop of `layout`:
the weight sum returned by `selectSpan` and the rectangles of the spanned
children, in order. -/
structure Strip where
  sum : ℚ
  rects : List Rect

/-- `Options` from src/treemap.ts, restricted to the numeric configuration
the layout math consumes: `getPadding()` returns
`[padTop, padRight, padBottom, padLeft]` and `getSpacing()` returns
`spacing` (`createNode` is a DOM concern with no bearing on geometry). -/
structure Options where
  padTop : ℚ
  padRight : ℚ
  padBottom : ℚ
  padLeft : ℚ
  spacing : ℚ

/-- The inner loop `for (let i = start; i < end; i++)` of `layout`,
iterating the index `i` over the span (`n` iterations left).  For each
child:
`width = size / height` and `widthPx = width / scale`, which with
`height = sum / space` and `space = scale*(x2-x1)` equals
`size * (x2-x1) / sum` exactly; then `x += widthPx`.  `heightPx` and `y`
are fixed for the whole strip. -/
def rowRects (children : List Data) (x2x1 sum y heightPx : ℚ) : ℕ → ℕ → ℚ → List Rect
  | _, 0, _ => []
  | i, n + 1, x =>
    let widthPx := sizeAt children i * x2x1 / sum
    ⟨x, y, widthPx, heightPx⟩ :: rowRects children x2x1 sum y heightPx (i + 1) n (x + widthPx)

/-- The outer loop `for (let start = 0; start < children.length;)` of
`layout` (src/treemap.ts lines 174-199), one strip per fuel unit.  Per
iteration: `space = scale*(x2-x1)` (carried squared as
`spaceSq = scaleSq*(x2-x1)²`), `selectSpan` picks the span, the loop breaks
when `sum / total < 0.1`, and otherwise emits the strip's rectangles with
`height = sum/space`, `heightPx = height/scale = sum/(scaleSq*(x2-x1))`,
then advances `y` and `start`.  `layout` passes fuel `children.length`,
which never runs out because every strip consumes at least one child
(`selectSpan_start_lt_endIdx` below). -/
def stripsGo (children : List Data) (total scaleSq x1 x2 : ℚ) :
    ℕ → ℕ → ℚ → List Strip
  | 0, _, _ => []
  | fuel + 1, start, y =>
    if start < children.length then
      let spaceSq := scaleSq * ((x2 - x1) * (x2 - x1))
      let r := selectSpan children spaceSq start
      if r.sum / total < 1 / 10 then []
      else
        let heightPx := r.sum / (scaleSq * (x2 - x1))
        ⟨r.sum,
          rowRects children (x2 - x1) r.sum y heightPx start (r.endIdx - start) x1⟩ ::
          stripsGo children total scaleSq x1 x2 fuel r.endIdx (y + heightPx)
    else []

/-- What `layout` writes for one child: the DOM node created at
`level + 1`, its unrounded geometry `rect`, and the style values actually
assigned (`px(x)`, `px(widthPx - spacing)`, `px(y)`,
`px(heightPx - spacing)`, where `px` is `Math.round`). -/
structure Emit where
  level : ℕ
  rect : Rect
  styleLeft : ℤ
  styleWidth : ℤ
  styleTop : ℤ
  styleHeight : ℤ

/-- `TreeMap.layout` (src/treemap.ts lines 146-200), with the DOM
replaced by the flat list of emitted child records in document order
(each child followed by its own subtree).  Padding is applied in source
order (`y1 += padding[0]; x2 -= padding[1]; y2 -= padding[2];
x1 += padding[3]`), layout stops if the content is narrower than 40 or
shorter than 100, `scale = sqrt(total / contentArea)` is carried squared as
`scaleSq`, and each laid-out child recurses on
`(widthPx - 2, heightPx - 2)` at `level + 1` ("We lose 2px due to the
border").  The structural fuel bounds the recursion depth; every theorem
below either quantifies over the fuel or supplies one at least the tree
height, and a call with fuel `0` is never reached from enough fuel. -/
def layout (opts : Options) : ℕ → Data → ℕ → ℚ → ℚ → List Emit
  | 0, _, _, _, _ => []
  | fuel + 1, d, level, width, height =>
    let total := d.size
    let children := d.children
    let y1 := 0 + opts.padTop
    let x2 := width - opts.padRight
    let y2 := height - opts.padBottom
    let x1 := 0 + opts.padLeft
    if x2 - x1 < 40 then []
    else if y2 - y1 < 100 then []
    else
      let scaleSq := total / ((x2 - x1) * (y2 - y1))
      let strips := stripsGo children total scaleSq x1 x2 children.length 0 y1
      let rects := strips.flatMap Strip.rects
      (children.zip rects).flatMap fun cr =>
        ⟨level + 1, cr.2, round cr.2.x, round (cr.2.w - opts.spacing),
            round cr.2.y, round (cr.2.h - opts.spacing)⟩ ::
          layout opts fuel cr.1 (level + 1) (cr.2.w - 2) (cr.2.h - 2)

/-- Modelled from the spec: §4.2 step (e) says the recursion happens
"against a rectangle shrunk by a fixed 2-unit inset on each side (border
correction)", i.e. width and height each reduced by 4 in total.  This is
`layout` with the recursive call receiving `widthPx - 4, heightPx - 4`,
used to compare that reading against the source, which passes
`widthPx - 2, heightPx - 2`. -/
def layoutInset4 (opts : Options) : ℕ → Data → ℕ → ℚ → ℚ → List Emit
  | 0, _, _, _, _ => []
  | fuel + 1, d, level, width, height =>
    let total := d.size
    let children := d.children
    let y1 := 0 + opts.padTop
    let x2 := width - opts.padRight
    let y2 := height - opts.padBottom
    let x1 := 0 + opts.padLeft
    if x2 - x1 < 40 then []
    else if y2 - y1 < 100 then []
    else
      let scaleSq := total / ((x2 - x1) * (y2 - y1))
      let strips := stripsGo children total scaleSq x1 x2 children.length 0 y1
      let rects := strips.flatMap Strip.rects
      (children.zip rects).flatMap fun cr =>
        ⟨level + 1, cr.2, round cr.2.x, round (cr.2.w - opts.spacing),
            round cr.2.y, round (cr.2.h - opts.spacing)⟩ ::
          layoutInset4 opts fuel cr.1 (level + 1) (cr.2.w - 4) (cr.2.h - 4)

lemma truthy_fin_zero : truthy (.fin 0) = false := by norm_num [truthy]

lemma jsDiv_of_ne_zero (a b : ℚ) (hb : b ≠ 0) : jsDiv a b = .fin (a / b) := by
  simp [jsDiv, hb]

lemma jsMax_fin (a b : ℚ) : jsMax (.fin a) (.fin b) = .fin (max a b) := rfl

lemma jsGt_fin (a b : ℚ) : jsGt (.fin a) (.fin b) = decide (b < a) := rfl

lemma truthy_fin (q : ℚ) : truthy (.fin q) = decide (q ≠ 0) := rfl

lemma spanSum_succ (children : List Data) (start n : ℕ) :
    spanSum children start (n + 1) = spanSum children start n + sizeAt children (start + n) :=
  rfl

lemma spanSum_add (children : List Data) (start a b : ℕ) :
    spanSum children start (a + b) =
      spanSum children start a + spanSum children (start + a) b := by
  induction b with
  | zero => simp [spanSum]
  | succ b ih =>
      have h1 : a + (b + 1) = (a + b) + 1 := rfl
      rw [h1, spanSum_succ, ih, spanSum_succ, add_assoc]
      have h2 : start + (a + b) = start + a + b := by omega
      rw [h2]

/-- Invariant-carrying description of the loop of `selectSpan`: entered at
candidate `start + m + 1` with the state reached after including candidates
`start..start+m`, the loop returns an `endIdx` past every candidate it
includes, never past the list, with `sum` the weights of `[start, endIdx)`;
no included candidate after the first triggered the stop test, and if the
loop stopped before the end of the list the stop test fired at `endIdx`. -/
lemma selectSpanGo_spec (children : List Data) (spaceSq : ℚ) (start : ℕ) :
    ∀ fuel m R, start + m + 1 + fuel = children.length →
      selectSpanGo children spaceSq fuel (spanMin children start m) (spanMax children start m)
          (spanSum children start (m + 1)) (spanScore children spaceSq start m)
          (start + m + 1) = R →
      start + m + 1 ≤ R.endIdx ∧ R.endIdx ≤ children.length ∧
        R.sum = spanSum children start (R.endIdx - start) ∧
        (∀ j, m + 1 ≤ j → start + j < R.endIdx →
          spanStop children spaceSq start j = false) ∧
        (R.endIdx < children.length →
          spanStop children spaceSq start (R.endIdx - start) = true) := by
  intro fuel
  induction fuel with
  | zero =>
      intro m R harith hR
      simp only [selectSpanGo] at hR
      subst hR
      dsimp only
      have hsub : start + m + 1 - start = m + 1 := by omega
      rw [hsub]
      refine ⟨Nat.le_refl _, by omega, rfl, ?_, ?_⟩
      · intro j hj hjlt
        exact absurd hjlt (by omega)
      · intro hlt
        exact absurd hlt (by omega)
  | succ fuel ih =>
      intro m R harith hR
      have hlt : start + m + 1 < children.length := by omega
      simp only [selectSpanGo] at hR
      rw [if_pos hlt] at hR
      have hmin : (if sizeAt children (start + m + 1) < spanMin children start m
          then sizeAt children (start + m + 1) else spanMin children start m) =
          spanMin children start (m + 1) := rfl
      have hmax : (if spanMax children start m < sizeAt children (start + m + 1)
          then sizeAt children (start + m + 1) else spanMax children start m) =
          spanMax children start (m + 1) := rfl
      have hsum : spanSum children start (m + 1) + sizeAt children (start + m + 1) =
          spanSum children start (m + 1 + 1) := rfl
      rw [hmin, hmax, hsum] at hR
      have hscore : jsMax
          (jsDiv (spanMax children start (m + 1) * spaceSq)
            (spanSum children start (m + 1 + 1) * spanSum children start (m + 1 + 1)))
          (jsDiv (spanSum children start (m + 1 + 1) * spanSum children start (m + 1 + 1))
            (spanMin children start (m + 1) * spaceSq)) =
          spanScore children spaceSq start (m + 1) := rfl
      rw [hscore] at hR
      have hstopeq : (truthy (spanScore children spaceSq start m) &&
          jsGt (spanScore children spaceSq start (m + 1))
            (spanScore children spaceSq start m)) =
          spanStop children spaceSq start (m + 1) := rfl
      rw [hstopeq] at hR
      cases hstop : spanStop children spaceSq start (m + 1) with
      | true =>
          rw [hstop, if_pos rfl] at hR
          subst hR
          dsimp only
          have hsub : start + m + 1 - start = m + 1 := by omega
          rw [hsub]
          refine ⟨Nat.le_refl _, by omega, rfl, ?_, ?_⟩
          · intro j hj hjlt
            exact absurd hjlt (by omega)
          · intro _
            exact hstop
      | false =>
          rw [hstop, if_neg Bool.false_ne_true] at hR
          obtain ⟨h1, h2, h3, h4, h5⟩ := ih (m + 1) R (by omega) hR
          refine ⟨by omega, h2, h3, ?_, h5⟩
          intro j hj hjlt
          rcases Nat.eq_or_lt_of_le hj with hje | hjgt
          · rw [← hje]
            exact hstop
          · exact h4 j (by omega) hjlt

/-- Closed-form description of `selectSpan`: for an in-range `start` the
span is nonempty, stays within the list, its `sum` is the sum of the
spanned weights, no included candidate (beyond the always-included first)
triggered the stop test, and if the span stopped short of the list's end it
was exactly because the stop test fired at `endIdx`. -/
lemma selectSpan_spec (children : List Data) (spaceSq : ℚ) (start : ℕ)
    (h : start < children.length) :
    start < (selectSpan children spaceSq start).endIdx ∧
      (selectSpan children spaceSq start).endIdx ≤ children.length ∧
      (selectSpan children spaceSq start).sum =
        spanSum children start ((selectSpan children spaceSq start).endIdx - start) ∧
      (∀ j, 0 < j → start + j < (selectSpan children spaceSq start).endIdx →
        spanStop children spaceSq start j = false) ∧
      ((selectSpan children spaceSq start).endIdx < children.length →
        spanStop children spaceSq start
          ((selectSpan children spaceSq start).endIdx - start) = true) := by
  obtain ⟨k, hk⟩ : ∃ k, children.length - start = k + 1 :=
    ⟨children.length - start - 1, by omega⟩
  have hgo : selectSpan children spaceSq start =
      selectSpanGo children spaceSq k (spanMin children start 0) (spanMax children start 0)
        (spanSum children start (0 + 1)) (spanScore children spaceSq start 0)
        (start + 0 + 1) := by
    rw [selectSpan, hk]
    simp only [selectSpanGo]
    rw [if_pos h]
    simp only [ite_self]
    rw [truthy_fin_zero, Bool.false_and, if_neg Bool.false_ne_true]
    rfl
  obtain ⟨h1, h2, h3, h4, h5⟩ :=
    selectSpanGo_spec children spaceSq start k 0 _ (by omega) rfl
  rw [hgo]
  exact ⟨by omega, h2, h3, fun j hj hjlt => h4 j (by omega) hjlt, h5⟩

lemma selectSpan_start_lt_endIdx (children : List Data) (spaceSq : ℚ) (start : ℕ)
    (h : start < children.length) : start < (selectSpan children spaceSq start).endIdx :=
  (selectSpan_spec children spaceSq start h).1

lemma sizeAt_nonneg (children : List Data) (h : ∀ c ∈ children, 0 ≤ c.size) (i : ℕ) :
    0 ≤ sizeAt children i := by
  unfold sizeAt
  cases hg : children[i]? with
  | none => exact le_refl 0
  | some c =>
      have hc : c ∈ children := by
        have := List.getElem?_eq_some_iff.mp hg
        obtain ⟨hlt, hEq⟩ := this
        exact hEq ▸ List.getElem_mem hlt
      simpa using h c hc

lemma sizeAt_pos (children : List Data) (h : ∀ c ∈ children, 0 < c.size) {i : ℕ}
    (hi : i < children.length) : 0 < sizeAt children i := by
  unfold sizeAt
  rw [List.getElem?_eq_getElem hi]
  exact h _ (List.getElem_mem hi)

lemma spanSum_nonneg (children : List Data) (h : ∀ c ∈ children, 0 ≤ c.size) (start : ℕ) :
    ∀ n, 0 ≤ spanSum children start n
  | 0 => le_refl 0
  | n + 1 => by
      rw [spanSum_succ]
      exact add_nonneg (spanSum_nonneg children h start n) (sizeAt_nonneg children h _)

lemma spanMin_pos (children : List Data) (start : ℕ) :
    ∀ n, (∀ k, k ≤ n → 0 < sizeAt children (start + k)) → 0 < spanMin children start n
  | 0, h => h 0 (Nat.le_refl 0)
  | n + 1, h => by
      simp only [spanMin]
      split
      · exact h (n + 1) (Nat.le_refl _)
      · exact spanMin_pos children start n fun k hk => h k (by omega)

lemma spanMax_pos (children : List Data) (start : ℕ) :
    ∀ n, (∀ k, k ≤ n → 0 < sizeAt children (start + k)) → 0 < spanMax children start n
  | 0, h => h 0 (Nat.le_refl 0)
  | n + 1, h => by
      simp only [spanMax]
      split
      · exact h (n + 1) (Nat.le_refl _)
      · exact spanMax_pos children start n fun k hk => h k (by omega)

lemma spanSum_pos (children : List Data) (start : ℕ) :
    ∀ n, (∀ k, k ≤ n → 0 < sizeAt children (start + k)) →
      0 < spanSum children start (n + 1)
  | 0, h => by
      rw [spanSum_succ]
      simpa [spanSum] using h 0 (Nat.le_refl 0)
  | n + 1, h => by
      rw [spanSum_succ]
      exact add_pos (spanSum_pos children start n fun k hk => h k (by omega))
        (h (n + 1) (Nat.le_refl _))

/-- With strictly positive weights through candidate `start + n` and a
positive squared space, the candidate score is the finite positive rational
`spanScoreQ`. -/
lemma spanScore_eq_fin (children : List Data) (spaceSq : ℚ) (start n : ℕ)
    (hsp : 0 < spaceSq) (h : ∀ k, k ≤ n → 0 < sizeAt children (start + k)) :
    spanScore children spaceSq start n = .fin (spanScoreQ children spaceSq start n) ∧
      0 < spanScoreQ children spaceSq start n := by
  have hmin := spanMin_pos children start n h
  have hmax := spanMax_pos children start n h
  have hsum := spanSum_pos children start n h
  have hd1 : spanSum children start (n + 1) * spanSum children start (n + 1) ≠ 0 :=
    (mul_pos hsum hsum).ne'
  have hd2 : spanMin children start n * spaceSq ≠ 0 := (mul_pos hmin hsp).ne'
  constructor
  · rw [spanScore, jsDiv_of_ne_zero _ _ hd1, jsDiv_of_ne_zero _ _ hd2, jsMax_fin, spanScoreQ]
  · rw [spanScoreQ]
    exact lt_max_iff.mpr (Or.inl (div_pos (mul_pos hmax hsp) (mul_pos hsum hsum)))

/-- For positive weights and positive squared space, not stopping at
candidate `start + n + 1` means its score is at most the previous score. -/
lemma spanStop_false_le (children : List Data) (spaceSq : ℚ) (start n : ℕ)
    (hsp : 0 < spaceSq) (h : ∀ k, k ≤ n + 1 → 0 < sizeAt children (start + k))
    (hstop : spanStop children spaceSq start (n + 1) = false) :
    spanScoreQ children spaceSq start (n + 1) ≤ spanScoreQ children spaceSq start n := by
  obtain ⟨he1, hp1⟩ :=
    spanScore_eq_fin children spaceSq start n hsp fun k hk => h k (by omega)
  obtain ⟨he2, hp2⟩ := spanScore_eq_fin children spaceSq start (n + 1) hsp h
  simp only [spanStop, he1, he2, truthy_fin, jsGt_fin] at hstop
  have hne : spanScoreQ children spaceSq start n ≠ 0 := ne_of_gt hp1
  simp [hne] at hstop
  exact hstop

/-- A zero weight at candidate `start + n + 1` after strictly positive
weights forces the stop: `smin` becomes `0`, the second score term divides
a positive number by `0` and is `+Infinity`, and `Infinity` is strictly
greater than the finite recorded score. -/
lemma spanStop_true_of_zero (children : List Data) (spaceSq : ℚ) (start n : ℕ)
    (hsp : 0 < spaceSq) (hpos : ∀ k, k ≤ n → 0 < sizeAt children (start + k))
    (hz : sizeAt children (start + (n + 1)) = 0) :
    spanStop children spaceSq start (n + 1) = true ∧
      jsDiv (spanSum children start (n + 1 + 1) * spanSum children start (n + 1 + 1))
        (spanMin children start (n + 1) * spaceSq) = .inf := by
  have hminpos := spanMin_pos children start n hpos
  have hmaxpos := spanMax_pos children start n hpos
  have hsumpos := spanSum_pos children start n hpos
  have hmin1 : spanMin children start (n + 1) = 0 := by
    simp only [spanMin]
    rw [hz, if_pos hminpos]
  have hsum2 : spanSum children start (n + 1 + 1) = spanSum children start (n + 1) := by
    rw [spanSum_succ, hz, add_zero]
  have hinf : jsDiv (spanSum children start (n + 1 + 1) * spanSum children start (n + 1 + 1))
      (spanMin children start (n + 1) * spaceSq) = .inf := by
    rw [hsum2, hmin1, zero_mul]
    simp [jsDiv, mul_pos hsumpos hsumpos]
  refine ⟨?_, hinf⟩
  obtain ⟨hfin, hposq⟩ := spanScore_eq_fin children spaceSq start n hsp hpos
  have hscore1 : spanScore children spaceSq start (n + 1) = .inf := by
    rw [spanScore, hinf]
    rw [hsum2, jsDiv_of_ne_zero _ _ (mul_pos hsumpos hsumpos).ne']
    rfl
  rw [spanStop, hscore1, hfin, truthy_fin]
  simp [ne_of_gt hposq, jsGt]

lemma spanSum_peel (children : List Data) :
    ∀ n start, spanSum children start (n + 1) =
      sizeAt children start + spanSum children (start + 1) n
  | 0, start => by simp [spanSum]
  | n + 1, start => by
      rw [spanSum_succ, spanSum_peel children n start, spanSum_succ, add_assoc]
      have hidx : start + (n + 1) = start + 1 + n := by omega
      rw [hidx]

lemma rowRects_length (children : List Data) (x2x1 sum y hPx : ℚ) :
    ∀ n i x, (rowRects children x2x1 sum y hPx i n x).length = n
  | 0, _, _ => rfl
  | n + 1, i, x => by
      simp only [rowRects, List.length_cons]
      rw [rowRects_length children x2x1 sum y hPx n]

/-- The summed unrounded area of the rectangles of one strip row. -/
lemma rowRects_area (children : List Data) (x2x1 sum y hPx : ℚ) :
    ∀ n i x, ((rowRects children x2x1 sum y hPx i n x).map fun r => r.w * r.h).sum =
      spanSum children i n * x2x1 / sum * hPx
  | 0, i, x => by simp [rowRects, spanSum]
  | n + 1, i, x => by
      simp only [rowRects, List.map_cons, List.sum_cons]
      rw [rowRects_area children x2x1 sum y hPx n (i + 1), spanSum_peel children n i]
      ring

/-- Geometric bounds for one strip row: rectangles march right from `x`
with nonnegative widths that altogether use up `spanSum · x2x1 / sum`, and
share the strip's `y` and `heightPx`. -/
lemma rowRects_bounds (children : List Data) (x2x1 sum y hPx x1 x2 : ℚ)
    (hsizes : ∀ c ∈ children, 0 ≤ c.size) (hsum : 0 < sum) (hx2x1 : 0 ≤ x2x1) :
    ∀ n i x, x1 ≤ x → x + spanSum children i n * x2x1 / sum ≤ x2 →
      ∀ r ∈ rowRects children x2x1 sum y hPx i n x,
        x1 ≤ r.x ∧ r.x + r.w ≤ x2 ∧ r.y = y ∧ r.h = hPx
  | 0, i, x, _, _, r, hr => absurd hr (List.not_mem_nil r)
  | n + 1, i, x, hx1, hx2, r, hr => by
      have hw0 : 0 ≤ sizeAt children i * x2x1 / sum :=
        div_nonneg (mul_nonneg (sizeAt_nonneg children hsizes i) hx2x1) (le_of_lt hsum)
      have hsplit : spanSum children i (n + 1) * x2x1 / sum =
          sizeAt children i * x2x1 / sum + spanSum children (i + 1) n * x2x1 / sum := by
        rw [spanSum_peel children n i]
        ring
      have htail0 : 0 ≤ spanSum children (i + 1) n * x2x1 / sum :=
        div_nonneg (mul_nonneg (spanSum_nonneg children hsizes (i + 1) n) hx2x1)
          (le_of_lt hsum)
      simp only [rowRects, List.mem_cons] at hr
      rcases hr with hr | hr
      · subst hr
        refine ⟨hx1, ?_, rfl, rfl⟩
        calc x + sizeAt children i * x2x1 / sum
            ≤ x + spanSum children i (n + 1) * x2x1 / sum := by
              rw [hsplit]
              linarith
          _ ≤ x2 := hx2
      · refine rowRects_bounds children x2x1 sum y hPx x1 x2 hsizes hsum hx2x1 n (i + 1)
          (x + sizeAt children i * x2x1 / sum) (by linarith) ?_ r hr
        rw [hsplit] at hx2
        linarith

lemma cutoff_sum_pos (total S : ℚ) (htot : 0 < total) (hcut : ¬ S / total < 1 / 10) :
    0 < S := by
  have hq : (0 : ℚ) < S / total := lt_of_lt_of_le (by norm_num) (not_lt.mp hcut)
  rcases div_pos_iff.mp hq with ⟨ha, _⟩ | ⟨_, hb⟩
  · exact ha
  · linarith

/-- Exact per-strip area accounting: every strip emitted by the outer loop
of `layout` covers `(strip weight sum / total) × content area`,
counting each rectangle's unrounded `widthPx × heightPx`. -/
lemma stripsGo_area (children : List Data) (total scaleSq x1 x2 y1 y2 : ℚ)
    (htot : 0 < total) (hx : 0 < x2 - x1) (hy : 0 < y2 - y1)
    (hscale : scaleSq = total / ((x2 - x1) * (y2 - y1))) :
    ∀ fuel start y, ∀ strip ∈ stripsGo children total scaleSq x1 x2 fuel start y,
      (strip.rects.map fun r => r.w * r.h).sum =
        strip.sum / total * ((x2 - x1) * (y2 - y1))
  | 0, start, y, strip, hmem => absurd hmem (List.not_mem_nil _)
  | fuel + 1, start, y, strip, hmem => by
      by_cases hs : start < children.length
      · simp only [stripsGo] at hmem
        rw [if_pos hs] at hmem
        by_cases hcut : (selectSpan children (scaleSq * ((x2 - x1) * (x2 - x1))) start).sum /
            total < 1 / 10
        · rw [if_pos hcut] at hmem
          exact absurd hmem (List.not_mem_nil _)
        · rw [if_neg hcut] at hmem
          rcases List.mem_cons.mp hmem with hstrip | hrest
          · subst hstrip
            dsimp only
            rw [rowRects_area]
            obtain ⟨h1, h2, h3, h4, h5⟩ :=
              selectSpan_spec children (scaleSq * ((x2 - x1) * (x2 - x1))) start hs
            rw [← h3]
            have hsumpos := cutoff_sum_pos total _ htot hcut
            revert hsumpos
            generalize (selectSpan children (scaleSq * ((x2 - x1) * (x2 - x1))) start).sum = S
            intro hsumpos
            rw [hscale]
            field_simp
            ring
          · exact stripsGo_area children total scaleSq x1 x2 y1 y2 htot hx hy hscale fuel
              _ _ strip hrest
      · simp only [stripsGo] at hmem
        rw [if_neg hs] at hmem
        exact absurd hmem (List.not_mem_nil _)

/-- Containment of every emitted rectangle in the content rectangle
`(x1, y1)-(x2, y2)`, given the data-model assumptions (nonnegative weights
summing to at most the node weight) and entry invariants on `y`. -/
lemma stripsGo_bounds (children : List Data) (total scaleSq x1 x2 y1 y2 : ℚ)
    (hsizes : ∀ c ∈ children, 0 ≤ c.size) (htot : 0 < total)
    (hx : 0 < x2 - x1) (hy : 0 < y2 - y1)
    (hscale : scaleSq = total / ((x2 - x1) * (y2 - y1))) :
    ∀ fuel start y, y1 ≤ y →
      y + spanSum children start (children.length - start) * (y2 - y1) / total ≤ y2 →
      ∀ strip ∈ stripsGo children total scaleSq x1 x2 fuel start y,
        ∀ r ∈ strip.rects, x1 ≤ r.x ∧ r.x + r.w ≤ x2 ∧ y1 ≤ r.y ∧ r.y + r.h ≤ y2
  | 0, start, y, _, _, strip, hmem => absurd hmem (List.not_mem_nil _)
  | fuel + 1, start, y, hy1, hbudget, strip, hmem => by
      by_cases hs : start < children.length
      · simp only [stripsGo] at hmem
        rw [if_pos hs] at hmem
        by_cases hcut : (selectSpan children (scaleSq * ((x2 - x1) * (x2 - x1))) start).sum /
            total < 1 / 10
        · rw [if_pos hcut] at hmem
          exact absurd hmem (List.not_mem_nil _)
        · rw [if_neg hcut] at hmem
          obtain ⟨h1, h2, h3, h4, h5⟩ :=
            selectSpan_spec children (scaleSq * ((x2 - x1) * (x2 - x1))) start hs
          have hsumpos := cutoff_sum_pos total _ htot hcut
          have hPxeq : (selectSpan children (scaleSq * ((x2 - x1) * (x2 - x1))) start).sum /
              (scaleSq * (x2 - x1)) =
              (selectSpan children (scaleSq * ((x2 - x1) * (x2 - x1))) start).sum *
                (y2 - y1) / total := by
            rw [hscale]
            field_simp
            ring
          have hns : (selectSpan children (scaleSq * ((x2 - x1) * (x2 - x1))) start).endIdx -
                start + (children.length -
                (selectSpan children (scaleSq * ((x2 - x1) * (x2 - x1))) start).endIdx) =
              children.length - start := by omega
          have hse : start + ((selectSpan children (scaleSq * ((x2 - x1) * (x2 - x1)))
                start).endIdx - start) =
              (selectSpan children (scaleSq * ((x2 - x1) * (x2 - x1))) start).endIdx := by
            omega
          have hsplit : spanSum children start (children.length - start) =
              spanSum children start
                ((selectSpan children (scaleSq * ((x2 - x1) * (x2 - x1))) start).endIdx -
                  start) +
              spanSum children
                (selectSpan children (scaleSq * ((x2 - x1) * (x2 - x1))) start).endIdx
                (children.length -
                  (selectSpan children (scaleSq * ((x2 - x1) * (x2 - x1))) start).endIdx) := by
            rw [← hns, spanSum_add, hse]
          have htail0 : 0 ≤ spanSum children
              (selectSpan children (scaleSq * ((x2 - x1) * (x2 - x1))) start).endIdx
              (children.length -
                (selectSpan children (scaleSq * ((x2 - x1) * (x2 - x1))) start).endIdx) :=
            spanSum_nonneg children hsizes _ _
          rcases List.mem_cons.mp hmem with hstrip | hrest
          · subst hstrip
            dsimp only
            intro r hr
            have hrow := rowRects_bounds children (x2 - x1)
              (selectSpan children (scaleSq * ((x2 - x1) * (x2 - x1))) start).sum y
              ((selectSpan children (scaleSq * ((x2 - x1) * (x2 - x1))) start).sum /
                (scaleSq * (x2 - x1))) x1 x2 hsizes hsumpos (le_of_lt hx) _ start x1
              (le_refl x1) ?_ r hr
            · obtain ⟨hb1, hb2, hb3, hb4⟩ := hrow
              refine ⟨hb1, hb2, ?_, ?_⟩
              · rw [hb3]
                exact hy1
              · rw [hb3, hb4, hPxeq]
                have hSle : (selectSpan children (scaleSq * ((x2 - x1) * (x2 - x1)))
                    start).sum ≤ spanSum children start (children.length - start) := by
                  rw [hsplit, ← h3]
                  linarith
                have hmono : (selectSpan children (scaleSq * ((x2 - x1) * (x2 - x1)))
                      start).sum * (y2 - y1) / total ≤
                    spanSum children start (children.length - start) * (y2 - y1) / total := by
                  gcongr
                linarith
            · rw [← h3, mul_div_cancel_left₀ _ hsumpos.ne']
              linarith
          · refine stripsGo_bounds children total scaleSq x1 x2 y1 y2 hsizes htot hx hy hscale
              fuel _ _ ?_ ?_ strip hrest
            · have hPxpos : 0 < (selectSpan children (scaleSq * ((x2 - x1) * (x2 - x1)))
                  start).sum * (y2 - y1) / total :=
                div_pos (mul_pos hsumpos hy) htot
              rw [hPxeq]
              linarith
            · rw [hPxeq]
              have hEq : (selectSpan children (scaleSq * ((x2 - x1) * (x2 - x1)))
                    start).sum * (y2 - y1) / total +
                  spanSum children
                    (selectSpan children (scaleSq * ((x2 - x1) * (x2 - x1))) start).endIdx
                    (children.length -
                      (selectSpan children (scaleSq * ((x2 - x1) * (x2 - x1)))
                        start).endIdx) * (y2 - y1) / total =
                  spanSum children start (children.length - start) * (y2 - y1) / total := by
                rw [hsplit, ← h3]
                ring
              linarith
      · simp only [stripsGo] at hmem
        rw [if_neg hs] at hmem
        exact absurd hmem (List.not_mem_nil _)

/-- Truncation bookkeeping for the outer loop: every emitted strip passed
the cutoff test, the emitted rectangles cover a prefix of the children, and
if that prefix is proper the loop stopped exactly because the span selected
at the first uncovered child failed the cutoff. -/
lemma stripsGo_stop (children : List Data) (total scaleSq x1 x2 : ℚ) :
    ∀ fuel start y, children.length - start ≤ fuel → start ≤ children.length →
      (∀ strip ∈ stripsGo children total scaleSq x1 x2 fuel start y,
        ¬ strip.sum / total < 1 / 10) ∧
      start + ((stripsGo children total scaleSq x1 x2 fuel start y).map
        fun s => s.rects.length).sum ≤ children.length ∧
      (start + ((stripsGo children total scaleSq x1 x2 fuel start y).map
          fun s => s.rects.length).sum < children.length →
        (selectSpan children (scaleSq * ((x2 - x1) * (x2 - x1)))
            (start + ((stripsGo children total scaleSq x1 x2 fuel start y).map
              fun s => s.rects.length).sum)).sum / total < 1 / 10)
  | 0, start, y, hfuel, hstart => by
      simp only [stripsGo, List.map_nil, List.sum_nil, Nat.add_zero]
      refine ⟨fun strip hmem => absurd hmem (List.not_mem_nil _), hstart, ?_⟩
      intro hlt
      exact absurd hlt (by omega)
  | fuel + 1, start, y, hfuel, hstart => by
      by_cases hs : start < children.length
      · simp only [stripsGo]
        rw [if_pos hs]
        by_cases hcut : (selectSpan children (scaleSq * ((x2 - x1) * (x2 - x1))) start).sum /
            total < 1 / 10
        · rw [if_pos hcut]
          simp only [List.map_nil, List.sum_nil, Nat.add_zero]
          exact ⟨fun strip hmem => absurd hmem (List.not_mem_nil _), hstart,
            fun _ => hcut⟩
        · rw [if_neg hcut]
          have hlt := selectSpan_start_lt_endIdx children
            (scaleSq * ((x2 - x1) * (x2 - x1))) start hs
          have hle := (selectSpan_spec children
            (scaleSq * ((x2 - x1) * (x2 - x1))) start hs).2.1
          obtain ⟨ih1, ih2, ih3⟩ := stripsGo_stop children total scaleSq x1 x2 fuel
            (selectSpan children (scaleSq * ((x2 - x1) * (x2 - x1))) start).endIdx
            (y + (selectSpan children (scaleSq * ((x2 - x1) * (x2 - x1))) start).sum /
              (scaleSq * (x2 - x1)))
            (by omega) (by omega)
          simp only [List.map_cons, List.sum_cons]
          rw [rowRects_length]
          have hcount : start + ((selectSpan children (scaleSq * ((x2 - x1) * (x2 - x1)))
                start).endIdx - start +
              ((stripsGo children total scaleSq x1 x2 fuel
                (selectSpan children (scaleSq * ((x2 - x1) * (x2 - x1))) start).endIdx
                (y + (selectSpan children (scaleSq * ((x2 - x1) * (x2 - x1))) start).sum /
                  (scaleSq * (x2 - x1)))).map fun s => s.rects.length).sum) =
              (selectSpan children (scaleSq * ((x2 - x1) * (x2 - x1))) start).endIdx +
              ((stripsGo children total scaleSq x1 x2 fuel
                (selectSpan children (scaleSq * ((x2 - x1) * (x2 - x1))) start).endIdx
                (y + (selectSpan children (scaleSq * ((x2 - x1) * (x2 - x1))) start).sum /
                  (scaleSq * (x2 - x1)))).map fun s => s.rects.length).sum := by
            omega
          rw [hcount]
          refine ⟨?_, ih2, ih3⟩
          intro strip hmem
          rcases List.mem_cons.mp hmem with hstrip | hrest
          · subst hstrip
            exact hcut
          · exact ih1 strip hrest
      · simp only [stripsGo]
        rw [if_neg hs]
        simp only [List.map_nil, List.sum_nil, Nat.add_zero]
        refine ⟨fun strip hmem => absurd hmem (List.not_mem_nil _), hstart, ?_⟩
        intro hltc
        exact absurd hltc hs

/-- C1: for every node with children being laid out (content rectangle
meeting the minimum-size thresholds, node size strictly positive), each
strip passing the `minAreaFraction` cutoff is assigned a total area — the
sum over its children of unrounded `widthPx × heightPx`, before the spacing
subtraction — exactly `(strip weight sum / node total) × content area`,
where the content area is `(x2 - x1) * (y2 - y1)` after padding. -/
theorem layout_strip_area_exact (children : List Data) (total x1 y1 x2 y2 : ℚ)
    (htot : 0 < total) (hw : 40 ≤ x2 - x1) (hh : 100 ≤ y2 - y1) :
    ∀ strip ∈ stripsGo children total (total / ((x2 - x1) * (y2 - y1))) x1 x2
        children.length 0 y1,
      (strip.rects.map fun r => r.w * r.h).sum =
        strip.sum / total * ((x2 - x1) * (y2 - y1)) :=
  fun strip hmem =>
    stripsGo_area children total _ x1 x2 y1 y2 htot (by linarith) (by linarith) rfl
      children.length 0 y1 strip hmem

theorem layout_strip_area_exact_witness :
    (0 : ℚ) < 100 ∧ (40 : ℚ) ≤ 100 - 0 ∧ (100 : ℚ) ≤ 100 - 0 ∧
      ∀ strip ∈ stripsGo [Data.mk 100 []] 100 (100 / ((100 - 0) * (100 - 0))) 0 100
          [Data.mk 100 []].length 0 0,
        (strip.rects.map fun r => r.w * r.h).sum =
          strip.sum / 100 * ((100 - 0) * (100 - 0)) :=
  ⟨by norm_num, by norm_num, by norm_num,
    layout_strip_area_exact [Data.mk 100 []] 100 0 0 100 100 (by norm_num) (by norm_num)
      (by norm_num)⟩

/-- C2: every child rectangle emitted by `layout` for a node lies within
the node's content rectangle — `x1 ≤ x`, `x + widthPx ≤ x2`, `y1 ≤ y`,
`y + heightPx ≤ y2` on the unrounded, pre-spacing values — under the data
model's assumptions (nonnegative weights, node weight at least the
children's total, positive node weight) and the minimum-size thresholds. -/
theorem layout_child_rect_containment (children : List Data) (total x1 y1 x2 y2 : ℚ)
    (hsizes : ∀ c ∈ children, 0 ≤ c.size)
    (hsum : spanSum children 0 children.length ≤ total)
    (htot : 0 < total) (hw : 40 ≤ x2 - x1) (hh : 100 ≤ y2 - y1) :
    ∀ strip ∈ stripsGo children total (total / ((x2 - x1) * (y2 - y1))) x1 x2
        children.length 0 y1,
      ∀ r ∈ strip.rects, x1 ≤ r.x ∧ r.x + r.w ≤ x2 ∧ y1 ≤ r.y ∧ r.y + r.h ≤ y2 := by
  intro strip hmem r hr
  have hy : (0 : ℚ) ≤ y2 - y1 := by linarith
  refine stripsGo_bounds children total _ x1 x2 y1 y2 hsizes htot (by linarith) (by linarith)
    rfl children.length 0 y1 (le_refl y1) ?_ strip hmem r hr
  have h0 : children.length - 0 = children.length := by omega
  rw [h0]
  have hmono : spanSum children 0 children.length * (y2 - y1) / total ≤
      total * (y2 - y1) / total := by
    gcongr
  have hcancel : total * (y2 - y1) / total = y2 - y1 := mul_div_cancel_left₀ _ htot.ne'
  linarith

theorem layout_child_rect_containment_witness :
    (0 : ℚ) < 100 ∧ spanSum [Data.mk 60 [], Data.mk 40 []] 0 2 ≤ 100 ∧
      ∀ strip ∈ stripsGo [Data.mk 60 [], Data.mk 40 []] 100 (100 / ((100 - 0) * (100 - 0)))
          0 100 [Data.mk 60 [], Data.mk 40 []].length 0 0,
        ∀ r ∈ strip.rects, 0 ≤ r.x ∧ r.x + r.w ≤ 100 ∧ 0 ≤ r.y ∧ r.y + r.h ≤ 100 :=
  ⟨by norm_num, by norm_num [spanSum, sizeAt, Data.size],
    layout_child_rect_containment [Data.mk 60 [], Data.mk 40 []] 100 0 0 100 100
      (by intro c hc; fin_cases hc <;> norm_num [Data.size])
      (by norm_num [spanSum, sizeAt, Data.size]) (by norm_num) (by norm_num) (by norm_num)⟩

/-- C3: for every children list, every strictly positive space (represented
by its square, since the source only uses `space * space`), and every valid
start index, `selectSpan` returns `end > start`: the span is never empty,
whatever the weights, because the first candidate is never rejected
(`lastScore` starts as the falsy number `0`). -/
theorem selectSpan_span_nonempty (children : List Data) (spaceSq : ℚ) (start : ℕ)
    (hsp : 0 < spaceSq) (h : start < children.length) :
    start < (selectSpan children spaceSq start).endIdx :=
  selectSpan_start_lt_endIdx children spaceSq start h

theorem selectSpan_span_nonempty_witness :
    (0 : ℚ) < 100 ∧ 0 < [Data.mk 0 [], Data.mk 0 []].length ∧
      0 < (selectSpan [Data.mk 0 [], Data.mk 0 []] 100 0).endIdx :=
  ⟨by norm_num, by decide,
    selectSpan_span_nonempty [Data.mk 0 [], Data.mk 0 []] 100 0 (by norm_num) (by decide)⟩

/-- C4: the loop of `selectSpan` stops without including candidate `end`
exactly when a recorded (truthy) previous score exists and the candidate's
score — `max(smax·space²/nextSum², nextSum²/(smin·space²))` — is strictly
greater; then the returned `end` is the candidate's index and the returned
`sum` is the weight sum before the candidate.  Otherwise the candidate is
included, `end` advances, `sum` becomes `nextSum` and the score is
recorded: so the result covers `[start, endIdx)` with its weight sum, no
included candidate stopped the loop, and a proper stop happened exactly at
`endIdx`. -/
theorem selectSpan_stop_characterisation (children : List Data) (spaceSq : ℚ) (start : ℕ)
    (h : start < children.length) :
    start < (selectSpan children spaceSq start).endIdx ∧
      (selectSpan children spaceSq start).endIdx ≤ children.length ∧
      (selectSpan children spaceSq start).sum =
        spanSum children start ((selectSpan children spaceSq start).endIdx - start) ∧
      (∀ j, 0 < j → start + j < (selectSpan children spaceSq start).endIdx →
        spanStop children spaceSq start j = false) ∧
      ((selectSpan children spaceSq start).endIdx < children.length →
        spanStop children spaceSq start
          ((selectSpan children spaceSq start).endIdx - start) = true) :=
  selectSpan_spec children spaceSq start h

theorem selectSpan_stop_characterisation_witness :
    0 < [Data.mk 10 [], Data.mk 9 [], Data.mk 1 []].length ∧
      (selectSpan [Data.mk 10 [], Data.mk 9 [], Data.mk 1 []] 100 0).sum =
        spanSum [Data.mk 10 [], Data.mk 9 [], Data.mk 1 []] 0
          ((selectSpan [Data.mk 10 [], Data.mk 9 [], Data.mk 1 []] 100 0).endIdx - 0) :=
  ⟨by decide,
    (selectSpan_stop_characterisation [Data.mk 10 [], Data.mk 9 [], Data.mk 1 []] 100 0
      (by decide)).2.2.1⟩

/-- C5: as soon as a selected strip's weight sum over the node total drops
strictly below the 0.1 cutoff, layout stops for the node: every emitted
strip passed the cutoff, the emitted rectangles cover a prefix of the
children (children of earlier strips keep their rectangles), and if that
prefix is proper, the span selected at the first uncovered child failed the
cutoff, so neither that strip's children nor any later child receives a
rectangle. -/
theorem layout_minAreaFraction_truncation (children : List Data) (total x1 y1 x2 y2 : ℚ) :
    (∀ strip ∈ stripsGo children total (total / ((x2 - x1) * (y2 - y1))) x1 x2
        children.length 0 y1, ¬ strip.sum / total < 1 / 10) ∧
      ((stripsGo children total (total / ((x2 - x1) * (y2 - y1))) x1 x2
          children.length 0 y1).map fun s => s.rects.length).sum ≤ children.length ∧
      (((stripsGo children total (total / ((x2 - x1) * (y2 - y1))) x1 x2
            children.length 0 y1).map fun s => s.rects.length).sum < children.length →
        (selectSpan children
            (total / ((x2 - x1) * (y2 - y1)) * ((x2 - x1) * (x2 - x1)))
            (((stripsGo children total (total / ((x2 - x1) * (y2 - y1))) x1 x2
              children.length 0 y1).map fun s => s.rects.length).sum)).sum / total <
          1 / 10) := by
  obtain ⟨h1, h2, h3⟩ := stripsGo_stop children total (total / ((x2 - x1) * (y2 - y1)))
    x1 x2 children.length 0 y1 (by omega) (by omega)
  simp only [Nat.zero_add] at h2 h3
  exact ⟨h1, h2, h3⟩

/-- C6: if the content rectangle left after padding is narrower than 40 or
shorter than 100, `layout` returns at once — no child rectangles, no
recursion, no error — even when the node has children. -/
theorem layout_degenerate_content_skip (opts : Options) (fuel : ℕ) (d : Data)
    (level : ℕ) (width height : ℚ)
    (h : width - opts.padRight - (0 + opts.padLeft) < 40 ∨
      height - opts.padBottom - (0 + opts.padTop) < 100) :
    layout opts fuel d level width height = [] := by
  cases fuel with
  | zero => rfl
  | succ fuel =>
      simp only [layout]
      rcases h with h | h
      · rw [if_pos h]
      · by_cases h1 : width - opts.padRight - (0 + opts.padLeft) < 40
        · rw [if_pos h1]
        · rw [if_neg h1, if_pos h]

theorem layout_degenerate_content_skip_witness :
    ((30 : ℚ) - 0 - (0 + 0) < 40 ∨ (200 : ℚ) - 0 - (0 + 0) < 100) ∧
      layout ⟨0, 0, 0, 0, 0⟩ 5 (Data.mk 100 [Data.mk 100 []]) 0 30 200 = [] :=
  ⟨Or.inl (by norm_num),
    layout_degenerate_content_skip ⟨0, 0, 0, 0, 0⟩ 5 (Data.mk 100 [Data.mk 100 []]) 0 30 200
      (Or.inl (by norm_num))⟩

/-- C7: for weights `[10, 9, 1]`, `space = 10` (so `spaceSq = 100`) and
`start = 0`, `selectSpan` returns `end = 2` and `sum = 19`: the third
item's score (`4`) exceeds the recorded two-item score (`1000/361`), so it
is not included. -/
theorem selectSpan_example_ten_nine_one :
    selectSpan [Data.mk 10 [], Data.mk 9 [], Data.mk 1 []] 100 0 = ⟨2, 19⟩ ∧
      spanStop [Data.mk 10 [], Data.mk 9 [], Data.mk 1 []] 100 0 2 = true := by
  constructor
  · norm_num [selectSpan, selectSpanGo, sizeAt, Data.size, jsDiv, jsMax, jsGt, truthy]
  · norm_num [spanStop, spanScore, spanMin, spanMax, spanSum, sizeAt, Data.size, jsDiv,
      jsMax, jsGt, truthy]

/-- C8 counterexample: the source recurses on `(widthPx - 2, heightPx - 2)`
(2 units total per dimension), not on `(widthPx - 4, heightPx - 4)` as a
"2-unit inset on each side" would require.  With a 43×110 root content, the
only child's rectangle is 43×110; the code lays out the grandchild inside a
41×108 content (emitting a level-2 node), while the spec's reading would
get a 39×106 content, below the 40 minimum width, and emit none. -/
theorem layout_inset4_counterexample :
    (layout ⟨0, 0, 0, 0, 0⟩ 3 (Data.mk 100 [Data.mk 100 [Data.mk 100 []]]) 0 43 110).map
        Emit.level = [1, 2] ∧
      (layoutInset4 ⟨0, 0, 0, 0, 0⟩ 3 (Data.mk 100 [Data.mk 100 [Data.mk 100 []]]) 0
        43 110).map Emit.level = [1] := by
  constructor
  · norm_num [layout, stripsGo, selectSpan, selectSpanGo, rowRects, sizeAt, Data.size,
      Data.children, jsDiv, jsMax, jsGt, truthy]
  · norm_num [layoutInset4, stripsGo, selectSpan, selectSpanGo, rowRects, sizeAt, Data.size,
      Data.children, jsDiv, jsMax, jsGt, truthy]

/-- C8 amended: for every child that receives a rectangle, the recursive
layout of its own children is invoked at `depth + 1` against the child's
unrounded pixel width and height each reduced by 2 in total (the source's
"we lose 2px due to the border"), not by 2 per side. -/
theorem layout_recursion_border_two (opts : Options) (fuel : ℕ) (d : Data) (level : ℕ)
    (width height : ℚ) :
    layout opts (fuel + 1) d level width height =
      (if width - opts.padRight - (0 + opts.padLeft) < 40 then []
      else if height - opts.padBottom - (0 + opts.padTop) < 100 then []
      else
        (d.children.zip ((stripsGo d.children d.size
            (d.size / ((width - opts.padRight - (0 + opts.padLeft)) *
              (height - opts.padBottom - (0 + opts.padTop))))
            (0 + opts.padLeft) (width - opts.padRight) d.children.length 0
            (0 + opts.padTop)).flatMap Strip.rects)).flatMap fun cr =>
          ⟨level + 1, cr.2, round cr.2.x, round (cr.2.w - opts.spacing), round cr.2.y,
              round (cr.2.h - opts.spacing)⟩ ::
            layout opts fuel cr.1 (level + 1) (cr.2.w - 2) (cr.2.h - 2)) := rfl

/-- C9: when a candidate brings the running minimum weight to zero (a zero
weight after strictly positive ones), the score term
`nextSum² / (smin · space²)` is `+Infinity`; the span never extends past
that candidate, and if the loop reached it (no earlier stop), it is cut
exactly there. -/
theorem selectSpan_zero_weight_infinite_score (children : List Data) (spaceSq : ℚ)
    (start n : ℕ) (hsp : 0 < spaceSq)
    (hpos : ∀ k, k ≤ n → 0 < sizeAt children (start + k))
    (hz : sizeAt children (start + (n + 1)) = 0)
    (hlen : start + (n + 1) < children.length) :
    jsDiv (spanSum children start (n + 1 + 1) * spanSum children start (n + 1 + 1))
        (spanMin children start (n + 1) * spaceSq) = .inf ∧
      (selectSpan children spaceSq start).endIdx ≤ start + (n + 1) ∧
      ((∀ j, 0 < j → j ≤ n → spanStop children spaceSq start j = false) →
        (selectSpan children spaceSq start).endIdx = start + (n + 1)) := by
  obtain ⟨hstopT, hinf⟩ := spanStop_true_of_zero children spaceSq start n hsp hpos hz
  obtain ⟨h1, h2, h3, h4, h5⟩ := selectSpan_spec children spaceSq start (by omega)
  have hle : (selectSpan children spaceSq start).endIdx ≤ start + (n + 1) := by
    by_contra hgt
    push_neg at hgt
    have := h4 (n + 1) (by omega) (by omega)
    rw [hstopT] at this
    exact Bool.noConfusion this
  refine ⟨hinf, hle, ?_⟩
  intro hreach
  rcases Nat.lt_or_ge (selectSpan children spaceSq start).endIdx (start + (n + 1)) with
    hltc | hgec
  · exfalso
    have hstop5 := h5 (by omega)
    have hj1 : 0 < (selectSpan children spaceSq start).endIdx - start := by omega
    have hj2 : (selectSpan children spaceSq start).endIdx - start ≤ n := by omega
    have := hreach _ hj1 hj2
    rw [hstop5] at this
    exact Bool.noConfusion this
  · omega

theorem selectSpan_zero_weight_infinite_score_witness :
    sizeAt [Data.mk 5 [], Data.mk 0 [], Data.mk 7 []] (0 + (0 + 1)) = 0 ∧
      (selectSpan [Data.mk 5 [], Data.mk 0 [], Data.mk 7 []] 100 0).endIdx = 0 + (0 + 1) :=
  ⟨by norm_num [sizeAt, Data.size],
    (selectSpan_zero_weight_infinite_score [Data.mk 5 [], Data.mk 0 [], Data.mk 7 []] 100 0 0
        (by norm_num)
        (by
          intro k hk
          have hk0 : k = 0 := by omega
          subst hk0
          norm_num [sizeAt, Data.size])
        (by norm_num [sizeAt, Data.size]) (by decide)).2.2
      (by
        intro j hj1 hj2
        exact absurd (lt_of_lt_of_le hj1 hj2) (lt_irrefl 0))⟩

/-- C10: on strictly positive weights with positive space, the recorded
score is monotonically non-increasing over the accepted span: every
included candidate's score is at most every earlier included candidate's
score, so the last included candidate's score is the minimum recorded. -/
theorem selectSpan_recorded_score_antitone (children : List Data) (spaceSq : ℚ)
    (start : ℕ) (hsp : 0 < spaceSq) (hpos : ∀ c ∈ children, 0 < c.size)
    (h : start < children.length) :
    ∀ m n, m ≤ n → start + n < (selectSpan children spaceSq start).endIdx →
      spanScoreQ children spaceSq start n ≤ spanScoreQ children spaceSq start m := by
  obtain ⟨h1, h2, h3, h4, h5⟩ := selectSpan_spec children spaceSq start h
  have hAt : ∀ k, start + k < children.length → 0 < sizeAt children (start + k) :=
    fun k hk => sizeAt_pos children hpos hk
  intro m n hmn
  induction n with
  | zero =>
      intro hn
      have hm0 : m = 0 := by omega
      subst hm0
      exact le_refl _
  | succ n ih =>
      intro hn
      rcases eq_or_lt_of_le hmn with hmeq | hmlt
      · rw [hmeq]
      · have hmle : m ≤ n := by omega
        have hstep : spanScoreQ children spaceSq start (n + 1) ≤
            spanScoreQ children spaceSq start n := by
          refine spanStop_false_le children spaceSq start n hsp ?_ ?_
          · intro k hk
            exact hAt k (by omega)
          · exact h4 (n + 1) (by omega) hn
        exact le_trans hstep (ih hmle (by omega))

theorem selectSpan_recorded_score_antitone_witness :
    (0 : ℚ) < 100 ∧ 0 + 2 < (selectSpan [Data.mk 10 [], Data.mk 9 [], Data.mk 8 []] 100 0).endIdx ∧
      spanScoreQ [Data.mk 10 [], Data.mk 9 [], Data.mk 8 []] 100 0 2 ≤
        spanScoreQ [Data.mk 10 [], Data.mk 9 [], Data.mk 8 []] 100 0 1 := by
  have hend : (selectSpan [Data.mk 10 [], Data.mk 9 [], Data.mk 8 []] 100 0).endIdx = 3 := by
    norm_num [selectSpan, selectSpanGo, sizeAt, Data.size, jsDiv, jsMax, jsGt, truthy]
  refine ⟨by norm_num, by rw [hend]; norm_num, ?_⟩
  refine selectSpan_recorded_score_antitone [Data.mk 10 [], Data.mk 9 [], Data.mk 8 []] 100 0
    (by norm_num) (by intro c hc; fin_cases hc <;> norm_num [Data.size]) (by decide) 1 2
    (by norm_num) ?_
  rw [hend]
  norm_num
